import Mathlib

/-!
# odri_control_interface: `Robot` (include/odri_control_interface/robot.hpp)

A shallow embedding of the class template `Robot<COUNT>` and proofs about its
methods `start`, `send_command`, `parse_sensor_data` and `has_error`.

## Embedding

* Everything outside the control thread (the master board, the joints, the IMU,
  the wall clock) is one world state `ω`.  The three collaborators are held
  through `shared_ptr`s and alias each other in the real system, so they act on
  the same `ω`.
* A collaborator method is a function on `ω`.  The two flag getters
  `IsTimeout` and `IsAckMsgReceived` only read the world.  Reading the clock
  returns the reading together with the world after the read: the passing of
  time, and whatever happens while it passes (a packet arriving, a deadline
  expiring), is part of that transition.
* Clock readings are integers, the tick count of `system_clock`, one tick being a
  nanosecond; tick counts stay far from the limits of the 64-bit count, so differences
  are exact.
* Every method also returns the list of collaborator calls it made, in order.
  This list is ghost data: no method reads it.
* `start` contains a loop that need not terminate.  It is run with a bound
  `fuel` on the number of evaluations of the loop condition; the result says
  whether the method returned within the bound, and carries the calls made so
  far either way.
-/

namespace odri_control_interface

/-! ## Collaborators -/

/-- Modelled from the spec: the class `MasterBoardInterface` of master_board_sdk, of which
`robot.hpp` only holds a pointer.  Spec section 6 lists these six operations; the two flag
getters return a `bool` and only read the state. -/
structure MasterBoardInterface (ω : Type) where
  Init : ω → ω
  IsTimeout : ω → Bool
  IsAckMsgReceived : ω → Bool
  SendInit : ω → ω
  SendCommand : ω → ω
  ParseSensorData : ω → ω

/-- Modelled from the spec: the class template `JointModules<COUNT>` declared in
`joint_modules.hpp`.  `robot.hpp` calls `enable()` only; the per-joint error flag is the one
spec sections 2 and 4.5 speak of. -/
structure JointModules (COUNT : Nat) (ω : Type) where
  enable : ω → ω
  error_flag : ω → Fin COUNT → Bool

/-- Modelled from the spec: the class `IMU` declared in `imu.hpp`.  `robot.hpp` calls none of
its methods; the error flag is the one spec sections 2 and 4.5 speak of. -/
structure IMU (ω : Type) where
  error_flag : ω → Bool

/-- The clock `std::chrono::system_clock`: `now` gives the reading, in ticks of one
nanosecond, and the world after the read. -/
structure system_clock (ω : Type) where
  now : ω → Int × ω

/-- The data members of `Robot<COUNT>` (robot.hpp lines 32-34). No method assigns to them. -/
structure Robot (COUNT : Nat) (ω : Type) where
  robot_if : MasterBoardInterface ω
  joints : JointModules COUNT ω
  imu : IMU ω

/-! ## Ghost trace -/

/-- One collaborator call made by a method of `Robot`, with the value it returned.
`SendInit` carries the value of the local variable `last` at the moment of the call, that is
the send time recorded for this packet. -/
inductive Call where
  | Init
  | enable
  | IsTimeout (result : Bool)
  | IsAckMsgReceived (result : Bool)
  | now (reading : Int)
  | SendInit (last : Int)
  | SendCommand
  | ParseSensorData
  deriving DecidableEq, Repr

/-- The calls that change the state of a collaborator: all but the two flag getters and the
clock reading. -/
def Call.mutating : Call → Bool
  | .IsTimeout _ => false
  | .IsAckMsgReceived _ => false
  | .now _ => false
  | _ => true

/-- The calls `start` makes after its first two statements: polls of the two flags, clock
readings and handshake packets. -/
def Call.handshake : Call → Bool
  | .IsTimeout _ => true
  | .IsAckMsgReceived _ => true
  | .now _ => true
  | .SendInit _ => true
  | _ => false

/-- The clock readings of a trace, in order. -/
def readings : List Call → List Int
  | [] => []
  | .now t :: cs => t :: readings cs
  | _ :: cs => readings cs

/-- The recorded send times of the handshake packets of a trace, in order. -/
def sendTimes : List Call → List Int
  | [] => []
  | .SendInit t :: cs => t :: sendTimes cs
  | _ :: cs => sendTimes cs

/-- The number of evaluations of the loop condition in a trace: each begins with a call of
`IsTimeout`. -/
def polls : List Call → Nat
  | [] => 0
  | .IsTimeout _ :: cs => polls cs + 1
  | _ :: cs => polls cs

/-! ## The methods of `Robot` -/

/-- What a method call gives: the returned value, the world after the call, and the
collaborator calls made. -/
structure Outcome (ω : Type) (α : Type) where
  value : α
  world : ω
  calls : List Call

/-- What a bounded run of `start` gives: whether `start` returned, the world, the local
variable `last`, and the collaborator calls made. -/
structure StartRun (ω : Type) where
  returned : Bool
  world : ω
  last : Int
  calls : List Call

/-- One millisecond in clock ticks. -/
def millisecond : Int := 1000000

/-- The test of robot.hpp line 60, `duration<double>(now - last).count() > 0.001`, as a test on
the tick difference `now - last`.  The source divides the tick count by 10^9 in `double` and
compares the quotient with the literal `0.001`.  At exactly 10^6 ticks the quotient is the
`double` nearest to 1/1000, the very value the literal denotes, so the test is false.  One
tick more gives a quotient about 10^-9 above it, where neighbouring doubles are about
2 * 10^-19 apart, so the test is true.  Division is monotone, so the test is true exactly
when the difference is more than 10^6 ticks. -/
def resendDue (elapsed : Int) : Bool := decide (millisecond < elapsed)

/-- `Robot::has_error` (robot.hpp lines 103-106). -/
def Robot.has_error {COUNT : Nat} {ω : Type} (R : Robot COUNT ω) (s : ω) : Outcome ω Bool :=
  let r := R.robot_if.IsTimeout s
  { value := r, world := s, calls := [Call.IsTimeout r] }

/-- `Robot::send_command` (robot.hpp lines 73-78). -/
def Robot.send_command {COUNT : Nat} {ω : Type} (R : Robot COUNT ω) (s : ω) : Outcome ω Bool :=
  let s1 := R.robot_if.SendCommand s
  let e := R.has_error s1
  { value := e.value, world := e.world, calls := Call.SendCommand :: e.calls }

/-- `Robot::parse_sensor_data` (robot.hpp lines 83-86). -/
def Robot.parse_sensor_data {COUNT : Nat} {ω : Type} (R : Robot COUNT ω) (s : ω) :
    Outcome ω Unit :=
  { value := (), world := R.robot_if.ParseSensorData s, calls := [Call.ParseSensorData] }

/-- The body of the loop of `start` (robot.hpp lines 60-64), run when the loop condition
held: the world after it, the new value of `last`, and the calls made. -/
def loopBody {COUNT : Nat} {ω : Type} (clk : system_clock ω) (R : Robot COUNT ω)
    (s : ω) (last : Int) : ω × Int × List Call :=
  let n1 := clk.now s
  if resendDue (n1.1 - last) then
    let n2 := clk.now n1.2
    (R.robot_if.SendInit n2.2, n2.1, [Call.now n1.1, Call.now n2.1, Call.SendInit n2.1])
  else
    (n1.2, last, [Call.now n1.1])

/-- The loop of `start` (robot.hpp lines 59-65) with at most `fuel` evaluations of its
condition.  `IsAckMsgReceived` is called only when `IsTimeout` returned false. -/
def pollLoop {COUNT : Nat} {ω : Type} (clk : system_clock ω) (R : Robot COUNT ω) :
    Nat → ω → Int → StartRun ω
  | 0, s, last => { returned := false, world := s, last := last, calls := [] }
  | fuel + 1, s, last =>
    if R.robot_if.IsTimeout s then
      { returned := true, world := s, last := last, calls := [Call.IsTimeout true] }
    else if R.robot_if.IsAckMsgReceived s then
      { returned := true, world := s, last := last,
        calls := [Call.IsTimeout false, Call.IsAckMsgReceived true] }
    else
      let b := loopBody clk R s last
      let r := pollLoop clk R fuel b.1 b.2.1
      { r with calls := [Call.IsTimeout false, Call.IsAckMsgReceived false] ++ b.2.2 ++ r.calls }

/-- `Robot::start` (robot.hpp lines 49-66) with at most `fuel` evaluations of the loop
condition. -/
def Robot.start {COUNT : Nat} {ω : Type} (clk : system_clock ω) (R : Robot COUNT ω)
    (fuel : Nat) (s : ω) : StartRun ω :=
  let s1 := R.robot_if.Init s
  let s2 := R.joints.enable s1
  let n0 := clk.now s2
  let r := pollLoop clk R fuel n0.2 n0.1
  { r with calls := [Call.Init, Call.enable, Call.now n0.1] ++ r.calls }

/-! ## The polls of a run -/

/-- The world and `last` at the `n`-th evaluation of the loop condition (counted from 0) of
a loop entered at `s`, `last`, when none of the earlier evaluations ended the loop. -/
def pollState {COUNT : Nat} {ω : Type} (clk : system_clock ω) (R : Robot COUNT ω) :
    Nat → ω → Int → ω × Int
  | 0, s, last => (s, last)
  | n + 1, s, last =>
    let b := loopBody clk R s last
    pollState clk R n b.1 b.2.1

/-- The loop condition is false at world `s`: the link reports a timeout or an
acknowledgment. -/
def exitsAt {COUNT : Nat} {ω : Type} (R : Robot COUNT ω) (s : ω) : Bool :=
  R.robot_if.IsTimeout s || R.robot_if.IsAckMsgReceived s

/-- The world and `last` when `start` enters its loop (after robot.hpp line 58). -/
def Robot.loopEntry {COUNT : Nat} {ω : Type} (clk : system_clock ω) (R : Robot COUNT ω)
    (s : ω) : ω × Int :=
  let n0 := clk.now (R.joints.enable (R.robot_if.Init s))
  (n0.2, n0.1)

/-- The world at the `n`-th poll of `start` called in world `s`. -/
def Robot.startPoll {COUNT : Nat} {ω : Type} (clk : system_clock ω) (R : Robot COUNT ω)
    (s : ω) (n : Nat) : ω :=
  (pollState clk R n (R.loopEntry clk s).1 (R.loopEntry clk s).2).1

/-- Modelled from the spec: the error status section 4.5 asks of the fully composed system,
the OR of the link timeout, each joint's error flag and the inertial sensor's error flag. No
such function is in `robot.hpp`. -/
def aggregateError {COUNT : Nat} {ω : Type} (R : Robot COUNT ω) (s : ω) : Bool :=
  R.robot_if.IsTimeout s || (List.finRange COUNT).any (fun i => R.joints.error_flag s i) ||
    R.imu.error_flag s

/-! ## A concrete rig for the executable examples -/

/-- The world of the examples: how many clock readings were taken, how many handshake
packets and how many command frames were sent, and the error flag of the single joint. -/
structure Rig where
  reads : Nat
  packets : Nat
  frames : Nat
  jointError : Bool
  deriving DecidableEq, Repr

/-- A link on the rig whose two flags are the given functions of the world. -/
def rigLink (timedOut ack : Rig → Bool) : MasterBoardInterface Rig :=
  { Init := fun s => s
    IsTimeout := timedOut
    IsAckMsgReceived := ack
    SendInit := fun s => { s with packets := s.packets + 1 }
    SendCommand := fun s => { s with frames := s.frames + 1 }
    ParseSensorData := fun s => s }

/-- A clock on the rig whose `n`-th reading is `tick n`. -/
def rigClock (tick : Nat → Int) : system_clock Rig :=
  { now := fun s => (tick s.reads, { s with reads := s.reads + 1 }) }

/-- A robot with one joint on the rig. -/
def rigRobot (timedOut ack : Rig → Bool) : Robot 1 Rig :=
  { robot_if := rigLink timedOut ack
    joints := { enable := fun s => s, error_flag := fun s _ => s.jointError }
    imu := { error_flag := fun _ => false } }

/-- The rig before anything happened. -/
def rig0 : Rig := { reads := 0, packets := 0, frames := 0, jointError := false }

/-- A clock that advances by 0.6 ms from one reading to the next. -/
def clock600 : system_clock Rig := rigClock (fun n => 600000 * (n : Int))

/-- Scenario A: the link never times out and acknowledges once 3 packets were sent. -/
def robotAck3 : Robot 1 Rig := rigRobot (fun _ => false) (fun s => decide (3 ≤ s.packets))

/-- Scenario B: the link never acknowledges and reports a timeout once 2 packets were
sent. -/
def robotTimeout2 : Robot 1 Rig := rigRobot (fun s => decide (2 ≤ s.packets)) (fun _ => false)

/-- A clock that advances by exactly 1 ms from one reading to the next. -/
def clock1000 : system_clock Rig := rigClock (fun n => 1000000 * (n : Int))

/-- A link that has the acknowledgment already when `start` first polls it. -/
def robotAck0 : Robot 1 Rig := rigRobot (fun _ => false) (fun _ => true)

/-- A link that reports a timeout once a command frame was sent. -/
def robotTimeoutOnCommand : Robot 1 Rig := rigRobot (fun s => decide (1 ≤ s.frames)) (fun _ => true)

/-- The rig in the active phase with a joint fault: the world in which `start` returned for
the link of scenario A, with the error flag of the joint raised. -/
def rigJointFault : Rig := { (robotAck3.start clock600 7 rig0).world with jointError := true }

/-- The rig at its third clock reading, 1.2 ms. -/
def rigThirdReading : Rig := { reads := 2, packets := 0, frames := 0, jointError := false }

/-- The rig after the handshake of scenario B timed out: two packets sent. -/
def rigTimedOut : Rig := (robotTimeout2.start clock600 5 rig0).world

/-- A link that neither acknowledges nor times out. -/
def robotSilent : Robot 1 Rig := rigRobot (fun _ => false) (fun _ => false)

/-! ## Basic facts about traces and the loop -/

theorem polls_append (a b : List Call) : polls (a ++ b) = polls a + polls b := by
  induction a with
  | nil => simp [polls]
  | cons c cs ih =>
    cases c
    all_goals simp [polls, ih]
    all_goals omega

theorem readings_append (a b : List Call) : readings (a ++ b) = readings a ++ readings b := by
  induction a with
  | nil => simp [readings]
  | cons c cs ih => cases c <;> simp [readings, ih]

theorem sendTimes_append (a b : List Call) : sendTimes (a ++ b) = sendTimes a ++ sendTimes b := by
  induction a with
  | nil => simp [sendTimes]
  | cons c cs ih => cases c <;> simp [sendTimes, ih]

/-- In a chain with gaps above `g`, the entry at index `i` is more than `(i + 1) * g` above
the start. -/
theorem chain_gap_bound (g : Int) : ∀ (l : List Int) (a : Int),
    List.Chain (fun x y => x + g < y) a l →
    ∀ (i : Nat) (h : i < l.length), a + ((i : Int) + 1) * g < l.get ⟨i, h⟩ := by
  intro l
  induction l with
  | nil => intro a _ i h; simp at h
  | cons b l ih =>
    intro a hc i h
    rw [List.chain_cons] at hc
    cases i with
    | zero => simpa using hc.1
    | succ i =>
      have hi : i < l.length := by simpa using h
      have := ih b hc.2 i hi
      simp only [List.get_cons_succ]
      push_cast
      linarith [hc.1]

/-- In a list that never decreases, every entry is at most the last one. -/
theorem le_getLastD_of_sorted : ∀ (l : List Int) (a x : Int),
    (a :: l).Pairwise (· ≤ ·) → x ∈ a :: l → x ≤ l.getLastD a := by
  intro l
  induction l with
  | nil =>
    intro a x _ hx
    simp at hx
    simp [List.getLastD_nil, hx]
  | cons b l ih =>
    intro a x hs hx
    rw [List.getLastD_cons]
    rw [List.pairwise_cons] at hs
    rcases List.mem_cons.1 hx with rfl | hx
    · exact hs.1 _ (List.getLastD_mem_cons l b)
    · exact ih b x hs.2 hx

section loop

variable {COUNT : Nat} {ω : Type} (clk : system_clock ω) (R : Robot COUNT ω)

theorem polls_loopBody (s : ω) (last : Int) : polls (loopBody clk R s last).2.2 = 0 := by
  simp only [loopBody]
  split_ifs <;> simp [polls]

theorem exitsAt_false_iff (s : ω) :
    exitsAt R s = false ↔ R.robot_if.IsTimeout s = false ∧ R.robot_if.IsAckMsgReceived s = false := by
  simp [exitsAt]

theorem loopBody_due (s : ω) (last : Int) (h : resendDue ((clk.now s).1 - last) = true) :
    loopBody clk R s last =
      (R.robot_if.SendInit (clk.now (clk.now s).2).2, (clk.now (clk.now s).2).1,
        [Call.now (clk.now s).1, Call.now (clk.now (clk.now s).2).1,
          Call.SendInit (clk.now (clk.now s).2).1]) := by
  simp [loopBody, h]

theorem loopBody_not_due (s : ω) (last : Int) (h : resendDue ((clk.now s).1 - last) = false) :
    loopBody clk R s last = ((clk.now s).2, last, [Call.now (clk.now s).1]) := by
  simp [loopBody, h]

/-- One more evaluation of the loop condition when the link reports neither flag. -/
theorem pollLoop_continue (fuel : Nat) (s : ω) (last : Int) (h : exitsAt R s = false) :
    pollLoop clk R (fuel + 1) s last =
      { pollLoop clk R fuel (loopBody clk R s last).1 (loopBody clk R s last).2.1 with
        calls := [Call.IsTimeout false, Call.IsAckMsgReceived false] ++
          (loopBody clk R s last).2.2 ++
          (pollLoop clk R fuel (loopBody clk R s last).1 (loopBody clk R s last).2.1).calls } := by
  obtain ⟨h1, h2⟩ := (exitsAt_false_iff R s).1 h
  simp [pollLoop, h1, h2]

/-- The evaluation of the loop condition that ends the loop. -/
theorem pollLoop_exit (fuel : Nat) (s : ω) (last : Int) (h : exitsAt R s = true) :
    pollLoop clk R (fuel + 1) s last =
      { returned := true, world := s, last := last,
        calls := if R.robot_if.IsTimeout s then [Call.IsTimeout true]
          else [Call.IsTimeout false, Call.IsAckMsgReceived true] } := by
  unfold exitsAt at h
  cases h1 : R.robot_if.IsTimeout s
  · have h2 : R.robot_if.IsAckMsgReceived s = true := by simpa [h1] using h
    simp [pollLoop, h1, h2]
  · simp [pollLoop, h1]

/-- While no poll ends the loop, `fuel` polls use up the fuel, reach `pollState fuel` and
poll `fuel` times. -/
theorem pollLoop_running (n : Nat) : ∀ (s : ω) (last : Int),
    (∀ m, m < n → exitsAt R (pollState clk R m s last).1 = false) →
    (pollLoop clk R n s last).returned = false ∧
    (pollLoop clk R n s last).world = (pollState clk R n s last).1 ∧
    (pollLoop clk R n s last).last = (pollState clk R n s last).2 ∧
    polls (pollLoop clk R n s last).calls = n := by
  induction n with
  | zero => intro s last _; simp [pollLoop, pollState, polls]
  | succ n ih =>
    intro s last h
    have h0 : exitsAt R s = false := h 0 (Nat.succ_pos n)
    have hrest : ∀ m, m < n → exitsAt R (pollState clk R m (loopBody clk R s last).1
        (loopBody clk R s last).2.1).1 = false := fun m hm => h (m + 1) (Nat.succ_lt_succ hm)
    obtain ⟨i1, i2, i3, i4⟩ := ih _ _ hrest
    rw [pollLoop_continue clk R n s last h0]
    refine ⟨i1, i2, i3, ?_⟩
    show polls ([Call.IsTimeout false, Call.IsAckMsgReceived false] ++
      (loopBody clk R s last).2.2 ++ _) = n + 1
    rw [polls_append, polls_append, polls_loopBody, i4]
    simp [polls]
    omega

/-- With more fuel than polls needed, the run is the run of the polls that go on, followed
by the run from the state they reach. -/
theorem pollLoop_add (n : Nat) : ∀ (s : ω) (last : Int) (f : Nat),
    (∀ m, m < n → exitsAt R (pollState clk R m s last).1 = false) →
    pollLoop clk R (n + f) s last =
      { pollLoop clk R f (pollState clk R n s last).1 (pollState clk R n s last).2 with
        calls := (pollLoop clk R n s last).calls ++
          (pollLoop clk R f (pollState clk R n s last).1 (pollState clk R n s last).2).calls } := by
  induction n with
  | zero => intro s last f _; simp [pollLoop, pollState]
  | succ n ih =>
    intro s last f h
    have h0 : exitsAt R s = false := h 0 (Nat.succ_pos n)
    have hrest : ∀ m, m < n → exitsAt R (pollState clk R m (loopBody clk R s last).1
        (loopBody clk R s last).2.1).1 = false := fun m hm => h (m + 1) (Nat.succ_lt_succ hm)
    have e : n + 1 + f = (n + f) + 1 := by omega
    rw [e, pollLoop_continue clk R (n + f) s last h0, pollLoop_continue clk R n s last h0,
      ih _ _ f hrest]
    simp [pollState]

/-- The loop returns at the first poll that reports a flag, and not before. -/
theorem pollLoop_first_exit (n : Nat) (s : ω) (last : Int)
    (hn : exitsAt R (pollState clk R n s last).1 = true)
    (hfirst : ∀ m, m < n → exitsAt R (pollState clk R m s last).1 = false) (fuel : Nat)
    (hfuel : n < fuel) :
    (pollLoop clk R fuel s last).returned = true ∧
    (pollLoop clk R fuel s last).world = (pollState clk R n s last).1 ∧
    (pollLoop clk R fuel s last).last = (pollState clk R n s last).2 ∧
    (pollLoop clk R fuel s last).calls = (pollLoop clk R n s last).calls ++
      (if R.robot_if.IsTimeout (pollState clk R n s last).1 then [Call.IsTimeout true]
        else [Call.IsTimeout false, Call.IsAckMsgReceived true]) := by
  obtain ⟨f, rfl⟩ : ∃ f, fuel = n + (f + 1) := ⟨fuel - n - 1, by omega⟩
  rw [pollLoop_add clk R n s last (f + 1) hfirst, pollLoop_exit clk R f _ _ hn]
  simp

/-- The method `start` is its three opening calls followed by the loop. -/
theorem start_eq (fuel : Nat) (s : ω) :
    R.start clk fuel s =
      { pollLoop clk R fuel (R.loopEntry clk s).1 (R.loopEntry clk s).2 with
        calls := [Call.Init, Call.enable, Call.now (R.loopEntry clk s).2] ++
          (pollLoop clk R fuel (R.loopEntry clk s).1 (R.loopEntry clk s).2).calls } := rfl

/-- Every call of the loop is a flag poll, a clock reading or a handshake packet. -/
theorem pollLoop_calls_handshake (fuel : Nat) : ∀ (s : ω) (last : Int) (c : Call),
    c ∈ (pollLoop clk R fuel s last).calls → c.handshake = true := by
  induction fuel with
  | zero => intro s last c hc; simp [pollLoop] at hc
  | succ n ih =>
    intro s last c hc
    cases h : exitsAt R s
    · rw [pollLoop_continue clk R n s last h] at hc
      simp only [List.mem_append] at hc
      rcases hc with (hc | hc) | hc
      · simp at hc
        rcases hc with rfl | rfl <;> rfl
      · simp only [loopBody] at hc
        split_ifs at hc
        · simp at hc
          rcases hc with rfl | rfl | rfl <;> rfl
        · simp at hc
          subst hc
          rfl
      · exact ih _ _ c hc
    · rw [pollLoop_exit clk R n s last h] at hc
      simp only at hc
      split_ifs at hc
      · simp at hc
        subst hc
        rfl
      · simp at hc
        rcases hc with rfl | rfl <;> rfl

/-- In any initial part of the trace of the loop whose clock readings never go back and
never read before `last`, each recorded send time is more than 1 ms after the one before,
the first more than 1 ms after `last`. -/
theorem pollLoop_send_gaps (fuel : Nat) : ∀ (s : ω) (last : Int) (j : Nat),
    (∀ t, t ∈ readings ((pollLoop clk R fuel s last).calls.take j) → last ≤ t) →
    (readings ((pollLoop clk R fuel s last).calls.take j)).Pairwise (· ≤ ·) →
    List.Chain (fun a b => a + millisecond < b) last
      (sendTimes ((pollLoop clk R fuel s last).calls.take j)) := by
  induction fuel with
  | zero => intro s last j _ _; simp [pollLoop, sendTimes]
  | succ n ih =>
    intro s last j hlast hsorted
    cases h : exitsAt R s
    · rw [pollLoop_continue clk R n s last h] at hlast hsorted ⊢
      cases hdue : resendDue ((clk.now s).1 - last)
      · rw [loopBody_not_due clk R s last hdue] at hlast hsorted ⊢
        simp only [List.nil_append, List.cons_append] at hlast hsorted ⊢
        rcases j with _ | _ | _ | j
        · simp [sendTimes]
        · simp [sendTimes]
        · simp [sendTimes]
        · simp only [List.take_succ_cons, readings, sendTimes, List.mem_cons,
            List.pairwise_cons] at hlast hsorted ⊢
          exact ih _ _ j (fun t ht => hlast t (Or.inr ht)) hsorted.2
      · rw [loopBody_due clk R s last hdue] at hlast hsorted ⊢
        simp only [List.nil_append, List.cons_append] at hlast hsorted ⊢
        have hgate : millisecond < (clk.now s).1 - last := by simpa [resendDue] using hdue
        rcases j with _ | _ | _ | _ | _ | j
        · simp [sendTimes]
        · simp [sendTimes]
        · simp [sendTimes]
        · simp [sendTimes]
        · simp [sendTimes]
        · simp only [List.take_succ_cons, readings, sendTimes, List.mem_cons,
            List.pairwise_cons] at hlast hsorted ⊢
          have h12 : (clk.now s).1 ≤ (clk.now (clk.now s).2).1 := hsorted.1 _ (Or.inl rfl)
          exact List.Chain.cons (by omega)
            (ih _ _ j (fun t ht => hsorted.2.1 t ht) hsorted.2.2)
    · rw [pollLoop_exit clk R n s last h]
      simp only
      split_ifs
      · rcases j with _ | j <;> simp [sendTimes]
      · rcases j with _ | _ | j <;> simp [sendTimes]

/-- In any initial part of the trace of the loop, each recorded send time is one of the
clock readings: a packet is sent right after the reading that stamps it. -/
theorem pollLoop_sendTimes_subset (fuel : Nat) : ∀ (s : ω) (last : Int) (j : Nat) (t : Int),
    t ∈ sendTimes ((pollLoop clk R fuel s last).calls.take j) →
    t ∈ readings ((pollLoop clk R fuel s last).calls.take j) := by
  induction fuel with
  | zero => intro s last j t ht; simp [pollLoop, sendTimes] at ht
  | succ n ih =>
    intro s last j t ht
    cases h : exitsAt R s
    · rw [pollLoop_continue clk R n s last h] at ht ⊢
      cases hdue : resendDue ((clk.now s).1 - last)
      · rw [loopBody_not_due clk R s last hdue] at ht ⊢
        simp only [List.nil_append, List.cons_append] at ht ⊢
        rcases j with _ | _ | _ | j
        · simp [sendTimes] at ht
        · simp [sendTimes] at ht
        · simp [sendTimes] at ht
        · simp only [List.take_succ_cons, readings, sendTimes, List.mem_cons] at ht ⊢
          exact Or.inr (ih _ _ j t ht)
      · rw [loopBody_due clk R s last hdue] at ht ⊢
        simp only [List.nil_append, List.cons_append] at ht ⊢
        rcases j with _ | _ | _ | _ | _ | j
        · simp [sendTimes] at ht
        · simp [sendTimes] at ht
        · simp [sendTimes] at ht
        · simp [sendTimes] at ht
        · simp [sendTimes] at ht
        · simp only [List.take_succ_cons, readings, sendTimes, List.mem_cons] at ht ⊢
          rcases ht with rfl | ht
          · exact Or.inr (Or.inl rfl)
          · exact Or.inr (Or.inr (ih _ _ j t ht))
    · rw [pollLoop_exit clk R n s last h] at ht
      simp only at ht
      split_ifs at ht
      · rcases j with _ | j <;> simp [sendTimes] at ht
      · rcases j with _ | _ | j <;> simp [sendTimes] at ht

theorem pollState_add (n : Nat) : ∀ (m : Nat) (s : ω) (last : Int),
    pollState clk R (n + m) s last =
      pollState clk R m (pollState clk R n s last).1 (pollState clk R n s last).2 := by
  induction n with
  | zero => intro m s last; simp [pollState]
  | succ n ih =>
    intro m s last
    have e : n + 1 + m = (n + m) + 1 := by omega
    rw [e]
    simp only [pollState]
    exact ih m _ _

/-- Where `sent` counts the handshake packets a world has received, the packets in the
trace of polls that go on account for the growth of `sent`. -/
theorem pollLoop_counts_packets (sent : ω → Nat)
    (hsend : ∀ w, sent (R.robot_if.SendInit w) = sent w + 1)
    (hnow : ∀ w, sent (clk.now w).2 = sent w) (n : Nat) : ∀ (s : ω) (last : Int),
    (∀ m, m < n → exitsAt R (pollState clk R m s last).1 = false) →
    (sendTimes (pollLoop clk R n s last).calls).length + sent s =
      sent (pollState clk R n s last).1 := by
  induction n with
  | zero => intro s last _; simp [pollLoop, pollState, sendTimes]
  | succ n ih =>
    intro s last h
    have h0 : exitsAt R s = false := h 0 (Nat.succ_pos n)
    have hrest : ∀ m, m < n → exitsAt R (pollState clk R m (loopBody clk R s last).1
        (loopBody clk R s last).2.1).1 = false := fun m hm => h (m + 1) (Nat.succ_lt_succ hm)
    have i := ih _ _ hrest
    rw [pollLoop_continue clk R n s last h0]
    simp only [pollState]
    rw [← i]
    cases hdue : resendDue ((clk.now s).1 - last)
    · rw [loopBody_not_due clk R s last hdue]
      simp [sendTimes_append, sendTimes, hnow]
    · rw [loopBody_due clk R s last hdue]
      simp [sendTimes_append, sendTimes, hnow, hsend]
      omega

/-- On a clock whose readings keep growing, a loop that no flag ends sends its next
packet after finitely many polls. -/
theorem next_packet_is_sent (sent : ω → Nat)
    (hsend : ∀ w, sent (R.robot_if.SendInit w) = sent w + 1)
    (hnow : ∀ w, sent (clk.now w).2 = sent w)
    (hadvance : ∀ w, (clk.now w).1 < (clk.now (clk.now w).2).1) (d : Nat) :
    ∀ (s : ω) (last : Int), (last + millisecond + 1 - (clk.now s).1).toNat ≤ d →
    ∃ m, (∀ i, i < m → sent (pollState clk R i s last).1 = sent s) ∧
      sent (pollState clk R m s last).1 = sent s + 1 := by
  induction d with
  | zero =>
    intro s last hd
    have hgate : millisecond < (clk.now s).1 - last := by omega
    have hdue : resendDue ((clk.now s).1 - last) = true := by simpa [resendDue] using hgate
    refine ⟨1, ?_, ?_⟩
    · intro i hi
      have : i = 0 := by omega
      subst this
      rfl
    · simp [pollState, loopBody_due clk R s last hdue, hsend, hnow]
  | succ d ih =>
    intro s last hd
    cases hdue : resendDue ((clk.now s).1 - last)
    · have hgate : ¬ millisecond < (clk.now s).1 - last := by simpa [resendDue] using hdue
      have hadv := hadvance s
      obtain ⟨m, hm1, hm2⟩ := ih (clk.now s).2 last (by omega)
      refine ⟨m + 1, ?_, ?_⟩
      · intro i hi
        cases i with
        | zero => rfl
        | succ i =>
          simp only [pollState, loopBody_not_due clk R s last hdue]
          rw [hm1 i (by omega), hnow]
      · simp only [pollState, loopBody_not_due clk R s last hdue]
        rw [hm2, hnow]
    · refine ⟨1, ?_, ?_⟩
      · intro i hi
        have : i = 0 := by omega
        subst this
        rfl
      · simp [pollState, loopBody_due clk R s last hdue, hsend, hnow]

/-- On a clock whose readings keep growing, a loop that no flag ends reaches any number of
packets sent. -/
theorem every_packet_is_sent (sent : ω → Nat)
    (hsend : ∀ w, sent (R.robot_if.SendInit w) = sent w + 1)
    (hnow : ∀ w, sent (clk.now w).2 = sent w)
    (hadvance : ∀ w, (clk.now w).1 < (clk.now (clk.now w).2).1) (s : ω) (last : Int)
    (j : Nat) :
    ∃ n, (∀ i, i < n → sent (pollState clk R i s last).1 < sent s + j) ∧
      sent (pollState clk R n s last).1 = sent s + j := by
  induction j with
  | zero => exact ⟨0, fun i hi => absurd hi (Nat.not_lt_zero i), rfl⟩
  | succ j ih =>
    obtain ⟨n, hn1, hn2⟩ := ih
    obtain ⟨m, hm1, hm2⟩ := next_packet_is_sent clk R sent hsend hnow hadvance _
      (pollState clk R n s last).1 (pollState clk R n s last).2 (le_refl _)
    refine ⟨n + m, ?_, ?_⟩
    · intro i hi
      by_cases hin : i < n
      · have := hn1 i hin
        omega
      · obtain ⟨i', rfl⟩ : ∃ i', i = n + i' := ⟨i - n, by omega⟩
        rw [pollState_add, hm1 i' (by omega), hn2]
        omega
    · rw [pollState_add, hm2, hn2]
      omega

end loop

/-! ## Handshake: `start` returns at the first reporting poll -/

/-- C1. Taking the link as the sequence of flag pairs seen at the successive polls of the
loop of `start`: if poll `n` is the first to report a timeout or an acknowledgment, `start`
returns at poll `n` (with any fuel above `n` it has returned, in the world of poll `n`,
after `n + 1` polls) and has not returned with fuel `n` or less; if some poll reports a
flag there is such a first poll, so `start` returns; if no poll ever reports a flag,
`start` returns with no amount of fuel. -/
theorem start_returns_at_first_reporting_poll {COUNT : Nat} {ω : Type} (clk : system_clock ω)
    (R : Robot COUNT ω) (s : ω) :
    (∀ n, exitsAt R (R.startPoll clk s n) = true →
      (∀ m, m < n → exitsAt R (R.startPoll clk s m) = false) →
        (∀ fuel, n < fuel → (R.start clk fuel s).returned = true ∧
          (R.start clk fuel s).world = R.startPoll clk s n ∧
          polls (R.start clk fuel s).calls = n + 1) ∧
        (∀ fuel, fuel ≤ n → (R.start clk fuel s).returned = false)) ∧
    ((∃ n, exitsAt R (R.startPoll clk s n) = true) →
      ∃ n, exitsAt R (R.startPoll clk s n) = true ∧
        (∀ m, m < n → exitsAt R (R.startPoll clk s m) = false) ∧
        ∀ fuel, n < fuel → (R.start clk fuel s).returned = true ∧
          (R.start clk fuel s).world = R.startPoll clk s n) ∧
    ((∀ n, exitsAt R (R.startPoll clk s n) = false) →
      ∀ fuel, (R.start clk fuel s).returned = false) := by
  have key : ∀ n, exitsAt R (R.startPoll clk s n) = true →
      (∀ m, m < n → exitsAt R (R.startPoll clk s m) = false) →
        (∀ fuel, n < fuel → (R.start clk fuel s).returned = true ∧
          (R.start clk fuel s).world = R.startPoll clk s n ∧
          polls (R.start clk fuel s).calls = n + 1) ∧
        (∀ fuel, fuel ≤ n → (R.start clk fuel s).returned = false) := by
    intro n hn hfirst
    constructor
    · intro fuel hfuel
      obtain ⟨r1, r2, _, r4⟩ := pollLoop_first_exit clk R n _ _ hn hfirst fuel hfuel
      obtain ⟨_, _, _, p4⟩ := pollLoop_running clk R n _ _ hfirst
      refine ⟨by rw [start_eq]; exact r1, by rw [start_eq]; exact r2, ?_⟩
      rw [start_eq]
      show polls ([Call.Init, Call.enable, Call.now (R.loopEntry clk s).2] ++ _) = n + 1
      rw [r4, polls_append, polls_append, p4]
      split_ifs <;> simp [polls]
    · intro fuel hfuel
      have h := (pollLoop_running clk R fuel (R.loopEntry clk s).1 (R.loopEntry clk s).2
        (fun m hm => hfirst m (Nat.lt_of_lt_of_le hm hfuel))).1
      rw [start_eq]
      exact h
  refine ⟨key, ?_, ?_⟩
  · intro hex
    have hmin : ∀ m, m < Nat.find hex → exitsAt R (R.startPoll clk s m) = false := by
      intro m hm
      have := Nat.find_min hex hm
      simpa using this
    exact ⟨Nat.find hex, Nat.find_spec hex, hmin, fun fuel hfuel =>
      ⟨((key _ (Nat.find_spec hex) hmin).1 fuel hfuel).1,
        ((key _ (Nat.find_spec hex) hmin).1 fuel hfuel).2.1⟩⟩
  · intro hnever fuel
    have h := (pollLoop_running clk R fuel (R.loopEntry clk s).1 (R.loopEntry clk s).2
      (fun m _ => hnever m)).1
    rw [start_eq]
    exact h

/-- C1 on the rig: the link of scenario A first reports at poll 6, so `start` has returned
with fuel 7 and not with fuel 6; the silent link never makes `start` return. -/
theorem start_returns_at_first_reporting_poll_witness :
    ((robotAck3.start clock600 7 rig0).returned = true ∧
      (robotAck3.start clock600 7 rig0).world = robotAck3.startPoll clock600 rig0 6 ∧
      polls (robotAck3.start clock600 7 rig0).calls = 6 + 1) ∧
    (robotAck3.start clock600 6 rig0).returned = false ∧
    (∀ fuel, (robotSilent.start clock600 fuel rig0).returned = false) :=
  ⟨((start_returns_at_first_reporting_poll clock600 robotAck3 rig0).1 6 (by decide)
      (by decide)).1 7 (by decide),
    ((start_returns_at_first_reporting_poll clock600 robotAck3 rig0).1 6 (by decide)
      (by decide)).2 6 (le_refl 6),
    (start_returns_at_first_reporting_poll clock600 robotSilent rig0).2.2 (fun _ => rfl)⟩

/-! ## `send_command` and `has_error` -/

/-- C2. The value `send_command` returns is the value of `has_error` in the world the
link's `SendCommand` leaves, which is also the world `send_command` leaves. -/
theorem send_command_returns_has_error_after_send {COUNT : Nat} {ω : Type}
    (R : Robot COUNT ω) (s : ω) :
    (R.send_command s).value = (R.has_error (R.robot_if.SendCommand s)).value ∧
    (R.send_command s).world = R.robot_if.SendCommand s ∧
    (R.send_command s).value = (R.has_error (R.send_command s).world).value := by
  simp [Robot.send_command, Robot.has_error]

/-- C2 on the rig: a link that times out on the command frame has no error before the
call, and `send_command` returns true, the status after the send. -/
theorem send_command_reads_status_after_send_example :
    (robotTimeoutOnCommand.has_error rig0).value = false ∧
    (robotTimeoutOnCommand.send_command rig0).value = true := by
  decide

/-- C3 on the rig. In the active phase (the link of scenario A acknowledged, no timeout) the
joint raises its error flag: the aggregate of spec section 4.5 is true, but `has_error`
returns false and so does the next `send_command`. -/
theorem has_error_ignores_joint_error :
    (robotAck3.start clock600 7 rig0).returned = true ∧
    robotAck3.robot_if.IsTimeout rigJointFault = false ∧
    robotAck3.joints.error_flag rigJointFault 0 = true ∧
    aggregateError robotAck3 rigJointFault = true ∧
    (robotAck3.has_error rigJointFault).value = false ∧
    (robotAck3.send_command rigJointFault).value = false := by
  decide

/-- C4. `has_error` returns the link's timeout flag of the current world, leaves the world
as it was, makes no call that changes a collaborator, and called again at once returns the
same value. -/
theorem has_error_is_a_read_of_the_timeout_flag {COUNT : Nat} {ω : Type}
    (R : Robot COUNT ω) (s : ω) :
    (R.has_error s).value = R.robot_if.IsTimeout s ∧
    (R.has_error s).world = s ∧
    (R.has_error s).calls = [Call.IsTimeout (R.robot_if.IsTimeout s)] ∧
    (∀ c, c ∈ (R.has_error s).calls → c.mutating = false) ∧
    (R.has_error (R.has_error s).world).value = (R.has_error s).value := by
  simp [Robot.has_error, Call.mutating]

/-- C5. In every world, whatever `has_error` says there, `send_command` calls the link's
`SendCommand` once, first, and besides it only reads the timeout flag: the only call that
changes a collaborator is that one `SendCommand`, and the world afterwards is the one it
leaves. -/
theorem send_command_sends_exactly_once {COUNT : Nat} {ω : Type}
    (R : Robot COUNT ω) (s : ω) :
    (R.send_command s).calls =
      [Call.SendCommand, Call.IsTimeout (R.robot_if.IsTimeout (R.robot_if.SendCommand s))] ∧
    (R.send_command s).calls.count Call.SendCommand = 1 ∧
    (R.send_command s).calls.filter Call.mutating = [Call.SendCommand] ∧
    (R.send_command s).world = R.robot_if.SendCommand s := by
  simp [Robot.send_command, Robot.has_error, Call.mutating, List.filter]

/-- C5 on the rig: in the world the timed-out handshake of scenario B leaves, `has_error`
is true, and `send_command` still calls `SendCommand`, once: one more frame is sent. -/
theorem send_command_sends_exactly_once_witness :
    (robotTimeout2.has_error rigTimedOut).value = true ∧
    (robotTimeout2.send_command rigTimedOut).calls = [Call.SendCommand, Call.IsTimeout true] ∧
    (robotTimeout2.send_command rigTimedOut).world.frames = rigTimedOut.frames + 1 :=
  ⟨by decide, (send_command_sends_exactly_once robotTimeout2 rigTimedOut).1, by decide⟩

/-! ## Handshake scenarios -/

/-- C6. Take a link that never reports a timeout and reports the acknowledgment exactly
when `k` or more handshake packets have been sent (`sent` counts them: `SendInit` adds one,
reading the clock adds none, and none has been sent when the loop is entered), and a clock
each reading of which is larger than the reading before. Then `start` returns: from some
fuel on it has returned, its trace holds exactly `k` handshake packets, and `has_error` in
the world it leaves is false. -/
theorem start_sends_k_packets_until_ack {COUNT : Nat} {ω : Type} (clk : system_clock ω)
    (R : Robot COUNT ω) (s : ω) (k : Nat) (sent : ω → Nat)
    (hnever : ∀ w, R.robot_if.IsTimeout w = false)
    (hack : ∀ w, R.robot_if.IsAckMsgReceived w = decide (k ≤ sent w))
    (hsend : ∀ w, sent (R.robot_if.SendInit w) = sent w + 1)
    (hnow : ∀ w, sent (clk.now w).2 = sent w)
    (hentry : sent (R.loopEntry clk s).1 = 0)
    (hadvance : ∀ w, (clk.now w).1 < (clk.now (clk.now w).2).1) :
    ∃ fuel0, ∀ fuel, fuel0 ≤ fuel →
      (R.start clk fuel s).returned = true ∧
      (sendTimes (R.start clk fuel s).calls).length = k ∧
      (R.has_error (R.start clk fuel s).world).value = false := by
  obtain ⟨n, hn1, hn2⟩ := every_packet_is_sent clk R sent hsend hnow hadvance
    (R.loopEntry clk s).1 (R.loopEntry clk s).2 k
  rw [hentry, Nat.zero_add] at hn2
  have hfirst : ∀ m, m < n → exitsAt R (pollState clk R m (R.loopEntry clk s).1
      (R.loopEntry clk s).2).1 = false := by
    intro m hm
    have := hn1 m hm
    rw [hentry, Nat.zero_add] at this
    simp [exitsAt, hnever, hack, this]
  have hexit : exitsAt R (pollState clk R n (R.loopEntry clk s).1
      (R.loopEntry clk s).2).1 = true := by
    simp [exitsAt, hnever, hack, hn2]
  have hcount := pollLoop_counts_packets clk R sent hsend hnow n _ _ hfirst
  rw [hentry, hn2, Nat.add_zero] at hcount
  refine ⟨n + 1, fun fuel hfuel => ?_⟩
  obtain ⟨r1, r2, _, r4⟩ := pollLoop_first_exit clk R n _ _ hexit hfirst fuel (by omega)
  refine ⟨by rw [start_eq]; exact r1, ?_, ?_⟩
  · show (sendTimes ([Call.Init, Call.enable, Call.now (R.loopEntry clk s).2] ++
      (pollLoop clk R fuel (R.loopEntry clk s).1 (R.loopEntry clk s).2).calls)).length = k
    rw [r4, sendTimes_append, sendTimes_append, hcount.symm]
    split_ifs <;> simp [sendTimes]
  · simp [Robot.has_error, hnever]

/-- C6 on the rig, `k = 3`: the link of scenario A on the 0.6 ms clock. With fuel 7 the
run has returned after the three packets stamped 1.8 ms, 3.6 ms and 5.4 ms. -/
theorem start_sends_k_packets_until_ack_witness :
    (∃ fuel0, ∀ fuel, fuel0 ≤ fuel →
      (robotAck3.start clock600 fuel rig0).returned = true ∧
      (sendTimes (robotAck3.start clock600 fuel rig0).calls).length = 3 ∧
      (robotAck3.has_error (robotAck3.start clock600 fuel rig0).world).value = false) ∧
    (robotAck3.start clock600 7 rig0).returned = true ∧
    sendTimes (robotAck3.start clock600 7 rig0).calls = [1800000, 3600000, 5400000] :=
  ⟨start_sends_k_packets_until_ack clock600 robotAck3 rig0 3 (fun w => w.packets)
    (fun _ => rfl) (fun _ => rfl) (fun _ => rfl) (fun _ => rfl) rfl
    (fun w => by
      show 600000 * (w.reads : Int) < 600000 * ((w.reads + 1 : Nat) : Int)
      push_cast
      omega),
    by decide, by decide⟩

/-- C7. If poll `n` of `start` is the first poll at which the link reports anything and it
reports a timeout, then `start` returns at that poll: its trace is the trace of the `n`
polls before, followed by the one call of `IsTimeout` that returned true, so no handshake
packet is sent after the timeout is seen; and `has_error` in the world `start` leaves is
true. -/
theorem start_returns_on_timeout_with_error {COUNT : Nat} {ω : Type} (clk : system_clock ω)
    (R : Robot COUNT ω) (s : ω) (n fuel : Nat)
    (htimeout : R.robot_if.IsTimeout (R.startPoll clk s n) = true)
    (hfirst : ∀ m, m < n → exitsAt R (R.startPoll clk s m) = false)
    (hfuel : n < fuel) :
    (R.start clk fuel s).returned = true ∧
    (R.start clk fuel s).world = R.startPoll clk s n ∧
    (R.start clk n s).returned = false ∧
    (R.start clk fuel s).calls = (R.start clk n s).calls ++ [Call.IsTimeout true] ∧
    sendTimes (R.start clk fuel s).calls = sendTimes (R.start clk n s).calls ∧
    (R.has_error (R.start clk fuel s).world).value = true := by
  have hn : exitsAt R (R.startPoll clk s n) = true := by simp [exitsAt, htimeout]
  obtain ⟨r1, r2, _, r4⟩ := pollLoop_first_exit clk R n _ _ hn hfirst fuel hfuel
  obtain ⟨p1, _, _, _⟩ := pollLoop_running clk R n _ _ hfirst
  have hT : R.robot_if.IsTimeout (pollState clk R n (R.loopEntry clk s).1
      (R.loopEntry clk s).2).1 = true := htimeout
  rw [hT] at r4
  have hcalls : (R.start clk fuel s).calls = (R.start clk n s).calls ++ [Call.IsTimeout true] := by
    rw [start_eq, start_eq]
    show _ ++ (pollLoop clk R fuel _ _).calls = (_ ++ (pollLoop clk R n _ _).calls) ++ _
    rw [r4]
    simp
  refine ⟨by rw [start_eq]; exact r1, by rw [start_eq]; exact r2, by rw [start_eq]; exact p1,
    hcalls, ?_, ?_⟩
  · rw [hcalls, sendTimes_append]
    simp [sendTimes]
  · have hw : (R.start clk fuel s).world = R.startPoll clk s n := by rw [start_eq]; exact r2
    rw [hw]
    simpa [Robot.has_error] using htimeout

/-- C7 on the rig: the link of scenario B first reports at poll 4, a timeout. -/
theorem start_returns_on_timeout_with_error_witness :
    (robotTimeout2.start clock600 5 rig0).returned = true ∧
    (robotTimeout2.start clock600 5 rig0).world = robotTimeout2.startPoll clock600 rig0 4 ∧
    (robotTimeout2.start clock600 4 rig0).returned = false ∧
    (robotTimeout2.start clock600 5 rig0).calls =
      (robotTimeout2.start clock600 4 rig0).calls ++ [Call.IsTimeout true] ∧
    sendTimes (robotTimeout2.start clock600 5 rig0).calls =
      sendTimes (robotTimeout2.start clock600 4 rig0).calls ∧
    (robotTimeout2.has_error (robotTimeout2.start clock600 5 rig0).world).value = true :=
  start_returns_on_timeout_with_error clock600 robotTimeout2 rig0 4 5 (by decide) (by decide)
    (by decide)

/-! ## The 1 ms gate -/

/-- C8, with the proviso that a packet was sent. Take any initial part of the trace of any
run of `start` (the first `j` calls, for any fuel) whose clock readings never go back. Then
each recorded send time is more than 1 ms after the one before, and the first more than
1 ms after the reading `last` starts from (robot.hpp line 58); the `i + 1`-st packet is
sent more than `(i + 1)` ms after that first reading and no later than the latest reading;
so once `n ≥ 1` packets have been sent, `n` times 1 ms is less than the clock time elapsed
since the first reading. With no packet sent it is only at most the elapsed time. -/
theorem handshake_packets_more_than_1ms_apart {COUNT : Nat} {ω : Type} (clk : system_clock ω)
    (R : Robot COUNT ω) (fuel : Nat) (s : ω) (j : Nat)
    (hclock : (readings ((R.start clk fuel s).calls.take j)).Pairwise (· ≤ ·)) :
    List.Chain (fun a b => a + millisecond < b) (R.loopEntry clk s).2
      (sendTimes ((R.start clk fuel s).calls.take j)) ∧
    (∀ (i : Nat) (h : i < (sendTimes ((R.start clk fuel s).calls.take j)).length),
      ((i : Int) + 1) * millisecond <
        (sendTimes ((R.start clk fuel s).calls.take j)).get ⟨i, h⟩ - (R.loopEntry clk s).2 ∧
      (sendTimes ((R.start clk fuel s).calls.take j)).get ⟨i, h⟩ ≤
        (readings ((R.start clk fuel s).calls.take j)).getLastD (R.loopEntry clk s).2) ∧
    (sendTimes ((R.start clk fuel s).calls.take j) ≠ [] →
      ((sendTimes ((R.start clk fuel s).calls.take j)).length : Int) * millisecond <
        (readings ((R.start clk fuel s).calls.take j)).getLastD (R.loopEntry clk s).2 -
          (R.loopEntry clk s).2) ∧
    ((sendTimes ((R.start clk fuel s).calls.take j)).length : Int) * millisecond ≤
      (readings ((R.start clk fuel s).calls.take j)).getLastD (R.loopEntry clk s).2 -
        (R.loopEntry clk s).2 := by
  have hcalls : (R.start clk fuel s).calls = Call.Init :: Call.enable ::
      Call.now (R.loopEntry clk s).2 ::
      (pollLoop clk R fuel (R.loopEntry clk s).1 (R.loopEntry clk s).2).calls := rfl
  rw [hcalls] at hclock ⊢
  rcases j with _ | _ | _ | j
  · simp [sendTimes, readings, List.getLastD_nil]
  · simp [sendTimes, readings, List.getLastD_nil]
  · simp [sendTimes, readings, List.getLastD_nil]
  simp only [List.take_succ_cons, readings, sendTimes] at hclock ⊢
  generalize hp : (pollLoop clk R fuel (R.loopEntry clk s).1 (R.loopEntry clk s).2).calls.take j
    = p at hclock ⊢
  have hclock2 := hclock
  rw [List.pairwise_cons] at hclock2
  have hchain : List.Chain (fun a b => a + millisecond < b) (R.loopEntry clk s).2
      (sendTimes p) := by
    rw [← hp]
    exact pollLoop_send_gaps clk R fuel _ _ j (hp ▸ hclock2.1) (hp ▸ hclock2.2)
  have hsub : ∀ t, t ∈ sendTimes p → t ∈ readings p := by
    intro t ht
    rw [← hp] at ht ⊢
    exact pollLoop_sendTimes_subset clk R fuel _ _ j t ht
  have hlast : ∀ x, x ∈ (R.loopEntry clk s).2 :: readings p →
      x ≤ ((R.loopEntry clk s).2 :: readings p).getLastD (R.loopEntry clk s).2 := by
    intro x hx
    rw [List.getLastD_cons]
    exact le_getLastD_of_sorted _ _ x hclock hx
  have hidx : ∀ (i : Nat) (h : i < (sendTimes p).length),
      ((i : Int) + 1) * millisecond < (sendTimes p).get ⟨i, h⟩ - (R.loopEntry clk s).2 ∧
      (sendTimes p).get ⟨i, h⟩ ≤
        ((R.loopEntry clk s).2 :: readings p).getLastD (R.loopEntry clk s).2 := by
    intro i h
    constructor
    · have := chain_gap_bound millisecond _ _ hchain i h
      linarith
    · exact hlast _ (List.mem_cons_of_mem _ (hsub _ (List.get_mem _ _ _)))
  have hpos : sendTimes p ≠ [] → ((sendTimes p).length : Int) * millisecond <
      ((R.loopEntry clk s).2 :: readings p).getLastD (R.loopEntry clk s).2 -
        (R.loopEntry clk s).2 := by
    intro hne
    have hlen : 0 < (sendTimes p).length := List.length_pos.2 hne
    obtain ⟨h1, h2⟩ := hidx ((sendTimes p).length - 1) (by omega)
    have hcast : (((sendTimes p).length - 1 : Nat) : Int) + 1 = ((sendTimes p).length : Int) := by
      omega
    rw [hcast] at h1
    linarith
  refine ⟨hchain, hidx, hpos, ?_⟩
  by_cases hne : sendTimes p = []
  · have h0 := hlast _ (List.mem_cons_self _ _)
    rw [hne]
    simp only [List.length_nil, Nat.cast_zero, zero_mul]
    linarith
  · exact le_of_lt (hpos hne)

/-- C8, the claim as written fails when no packet was sent: the link that has the
acknowledgment at the first poll makes `start` return after the single clock reading 0,
so `n = 0` packets were sent and the elapsed clock time is 0, and `0 * 1 ms` is not less
than 0. -/
theorem no_packet_and_no_time_elapsed :
    (robotAck0.start clock600 1 rig0).returned = true ∧
    (readings (robotAck0.start clock600 1 rig0).calls).Pairwise (· ≤ ·) ∧
    (sendTimes (robotAck0.start clock600 1 rig0).calls).length = 0 ∧
    (readings (robotAck0.start clock600 1 rig0).calls).getLastD
      (robotAck0.loopEntry clock600 rig0).2 - (robotAck0.loopEntry clock600 rig0).2 = 0 ∧
    ¬ (((sendTimes (robotAck0.start clock600 1 rig0).calls).length : Int) * millisecond <
      (readings (robotAck0.start clock600 1 rig0).calls).getLastD
        (robotAck0.loopEntry clock600 rig0).2 - (robotAck0.loopEntry clock600 rig0).2) := by
  decide

/-- C8 at the silent link on the 0.6 ms clock, the first 11 calls of the run (through the
first packet): the readings 0, 0.6, 1.2 and 1.8 ms never go back, the packet is stamped
1.8 ms, and 1 ms is less than the 1.8 ms elapsed. -/
theorem handshake_packets_more_than_1ms_apart_witness :
    readings ((robotSilent.start clock600 6 rig0).calls.take 11) =
      [0, 600000, 1200000, 1800000] ∧
    sendTimes ((robotSilent.start clock600 6 rig0).calls.take 11) = [1800000] ∧
    List.Chain (fun a b => a + millisecond < b) (robotSilent.loopEntry clock600 rig0).2
      (sendTimes ((robotSilent.start clock600 6 rig0).calls.take 11)) ∧
    (((sendTimes ((robotSilent.start clock600 6 rig0).calls.take 11)).length : Int) *
        millisecond <
      (readings ((robotSilent.start clock600 6 rig0).calls.take 11)).getLastD
        (robotSilent.loopEntry clock600 rig0).2 - (robotSilent.loopEntry clock600 rig0).2) :=
  ⟨by decide, by decide,
    (handshake_packets_more_than_1ms_apart clock600 robotSilent 6 rig0 11 (by decide)).1,
    (handshake_packets_more_than_1ms_apart clock600 robotSilent 6 rig0 11 (by decide)).2.2.1
      (by decide)⟩

/-- C9, as the code has it. In an iteration in which the link reports neither flag, the
clock is read; when the reading is more than 1 ms after `last`, the clock is read again,
that second reading becomes `last` and a handshake packet is sent; when it is 1 ms or less
after `last`, exactly 1 ms included, nothing is sent and `last` stays. -/
theorem resend_when_more_than_1ms_elapsed {COUNT : Nat} {ω : Type} (clk : system_clock ω)
    (R : Robot COUNT ω) (fuel : Nat) (s : ω) (last : Int)
    (htimeout : R.robot_if.IsTimeout s = false)
    (hack : R.robot_if.IsAckMsgReceived s = false) :
    (millisecond < (clk.now s).1 - last →
      pollLoop clk R (fuel + 1) s last =
        { pollLoop clk R fuel (R.robot_if.SendInit (clk.now (clk.now s).2).2)
            (clk.now (clk.now s).2).1 with
          calls := [Call.IsTimeout false, Call.IsAckMsgReceived false, Call.now (clk.now s).1,
            Call.now (clk.now (clk.now s).2).1, Call.SendInit (clk.now (clk.now s).2).1] ++
            (pollLoop clk R fuel (R.robot_if.SendInit (clk.now (clk.now s).2).2)
              (clk.now (clk.now s).2).1).calls }) ∧
    ((clk.now s).1 - last ≤ millisecond →
      pollLoop clk R (fuel + 1) s last =
        { pollLoop clk R fuel (clk.now s).2 last with
          calls := [Call.IsTimeout false, Call.IsAckMsgReceived false, Call.now (clk.now s).1] ++
            (pollLoop clk R fuel (clk.now s).2 last).calls }) := by
  have h : exitsAt R s = false := (exitsAt_false_iff R s).2 ⟨htimeout, hack⟩
  constructor
  · intro hgt
    rw [pollLoop_continue clk R fuel s last h]
    simp [loopBody, resendDue, hgt]
  · intro hle
    rw [pollLoop_continue clk R fuel s last h]
    have : ¬ millisecond < (clk.now s).1 - last := not_lt.2 hle
    simp [loopBody, resendDue, this]

/-- C9, the claim as written fails at exactly 1 ms: the silent link on a clock reading
0 and then 1000000 gets to its first iteration with `last = 0` and the clock 1 ms later;
the link reports neither flag, yet the iteration sends no packet and leaves `last` at 0. -/
theorem no_resend_at_exactly_1ms :
    (robotSilent.loopEntry clock1000 rig0).2 = 0 ∧
    (clock1000.now (robotSilent.loopEntry clock1000 rig0).1).1 -
      (robotSilent.loopEntry clock1000 rig0).2 = millisecond ∧
    exitsAt robotSilent (robotSilent.loopEntry clock1000 rig0).1 = false ∧
    (robotSilent.start clock1000 1 rig0).calls =
      [Call.Init, Call.enable, Call.now 0, Call.IsTimeout false, Call.IsAckMsgReceived false,
        Call.now 1000000] ∧
    sendTimes (robotSilent.start clock1000 1 rig0).calls = [] ∧
    (robotSilent.start clock1000 1 rig0).last = 0 := by
  decide

/-- C9 on the rig: at the third reading, 1.2 ms after `last = 0`, the silent link is sent a
packet; at the second reading of the 1 ms clock, exactly 1 ms after `last = 0`, it is
not. -/
theorem resend_when_more_than_1ms_elapsed_witness :
    sendTimes (pollLoop clock600 robotSilent 1 rigThirdReading 0).calls = [1800000] ∧
    sendTimes (pollLoop clock1000 robotSilent 1 (robotSilent.loopEntry clock1000 rig0).1
      0).calls = [] :=
  ⟨by
      rw [(resend_when_more_than_1ms_elapsed clock600 robotSilent 0 rigThirdReading 0 rfl
        rfl).1 (by decide)]
      decide,
    by
      rw [(resend_when_more_than_1ms_elapsed clock1000 robotSilent 0
        (robotSilent.loopEntry clock1000 rig0).1 0 rfl rfl).2 (by decide)]
      decide⟩

/-! ## The calls of `start` -/

/-- C10. Whatever the fuel, so for every run of `start` and every stretch of it up to a
poll: the trace is one `Init`, then one `enable`, then only flag polls, clock readings and
handshake packets; `Init` and `enable` occur once each, and `SendCommand` and
`ParseSensorData` do not occur. -/
theorem start_trace_opens_with_init_then_enable {COUNT : Nat} {ω : Type} (clk : system_clock ω)
    (R : Robot COUNT ω) (fuel : Nat) (s : ω) :
    ∃ rest, (R.start clk fuel s).calls = Call.Init :: Call.enable :: rest ∧
      (∀ c, c ∈ rest → c.handshake = true) ∧
      (R.start clk fuel s).calls.count Call.Init = 1 ∧
      (R.start clk fuel s).calls.count Call.enable = 1 ∧
      Call.SendCommand ∉ (R.start clk fuel s).calls ∧
      Call.ParseSensorData ∉ (R.start clk fuel s).calls := by
  have hloop := pollLoop_calls_handshake clk R fuel (R.loopEntry clk s).1 (R.loopEntry clk s).2
  have hrest : ∀ c, c ∈ Call.now (R.loopEntry clk s).2 ::
      (pollLoop clk R fuel (R.loopEntry clk s).1 (R.loopEntry clk s).2).calls →
      c.handshake = true := by
    intro c hc
    rcases List.mem_cons.1 hc with rfl | hc
    · rfl
    · exact hloop c hc
  have hnot : ∀ c : Call, c.handshake = false → c ∉ Call.now (R.loopEntry clk s).2 ::
      (pollLoop clk R fuel (R.loopEntry clk s).1 (R.loopEntry clk s).2).calls := by
    intro c hc hmem
    rw [hrest c hmem] at hc
    exact Bool.noConfusion hc
  have hcalls : (R.start clk fuel s).calls = Call.Init :: Call.enable ::
      Call.now (R.loopEntry clk s).2 ::
      (pollLoop clk R fuel (R.loopEntry clk s).1 (R.loopEntry clk s).2).calls := rfl
  refine ⟨_, hcalls, hrest, ?_, ?_, ?_, ?_⟩
  · rw [hcalls, List.count_cons_self, List.count_cons_of_ne (by decide),
      List.count_eq_zero.2 (hnot Call.Init rfl)]
  · rw [hcalls, List.count_cons_of_ne (by decide), List.count_cons_self,
      List.count_eq_zero.2 (hnot Call.enable rfl)]
  · rw [hcalls]
    intro hin
    rcases List.mem_cons.1 hin with h | hin
    · exact Call.noConfusion h
    · rcases List.mem_cons.1 hin with h | hin
      · exact Call.noConfusion h
      · exact hnot Call.SendCommand rfl hin
  · rw [hcalls]
    intro hin
    rcases List.mem_cons.1 hin with h | hin
    · exact Call.noConfusion h
    · rcases List.mem_cons.1 hin with h | hin
      · exact Call.noConfusion h
      · exact hnot Call.ParseSensorData rfl hin

end odri_control_interface
